import Mathlib

/-!
# Embedding adapter of `fantasy`: options, request construction, response normalisation

Shallow embedding of `embeddings.go` (package `fantasy`) and of
`providers/openai/embeddings.go` (method `provider.Embed`).

Modelling conventions.

* A Go slice is a `List`; a `nil` slice and an empty slice are both `[]` (the code only
  takes `len` of it and ranges over it).
* `*int` is `Option Int`; Go's `int` and `int64` are the 64-bit two's-complement integers,
  represented by the `Int` values in `[-2^63, 2^63)`; arithmetic that can leave the range is
  wrapped explicitly with `wrapInt`.  The conversions `int(e.Index)` and
  `int64(*call.Dimensions)` are the identity on that range.
* An `EmbeddingOption` mutates the call through a pointer; here it is a function from the
  call to the updated call.
* `(*T, error)` results are `Except GoError T`.
* The network call `client.Embeddings.New` is a parameter `transport`; `Embed` returns, next
  to its result, the list of requests it handed to the transport.
* `float32(f)` is a parameter `narrow : F64 → F32` of the general statements; the
  conversion itself is embedded on bit patterns as `float32` and is used where the narrowed
  vectors of a concrete response are evaluated.
* `slices.SortFunc` is the standard library's pattern-defeating quicksort.  Its entry test
  (`length <= maxInsertion`, `maxInsertion = 12`) and the insertion sort it runs on short
  slices are embedded literally; the routine used for longer slices is a parameter
  `pdqLong`, constrained where needed by the library's documented contract `SortsByCmp`.
-/

namespace Fantasy

/-! ## Data model (`embeddings.go`) -/

/-- Go `error` values: the package sentinel `ErrEmbeddingInputRequired` and any other error
value, identified by a tag. -/
inductive GoError where
  | ErrEmbeddingInputRequired : GoError
  | other (tag : Nat) : GoError
deriving DecidableEq, Repr

/-- A 64-bit float, identified by its bit pattern. -/
structure F64 where
  bits : Nat
deriving DecidableEq, Repr

/-- A 32-bit float, identified by its bit pattern. -/
structure F32 where
  bits : Nat
deriving DecidableEq, Repr

/-- The struct `EmbeddingCall`. -/
structure EmbeddingCall where
  Model : String
  Input : List String
  Dimensions : Option Int
deriving DecidableEq, Repr

/-- The type `EmbeddingOption`, `func(*EmbeddingCall)`. -/
abbrev EmbeddingOption := EmbeddingCall → EmbeddingCall

/-- `WithEmbeddingInput`: `c.Input = []string{text}`. -/
def WithEmbeddingInput (text : String) : EmbeddingOption :=
  fun c => { c with Input := [text] }

/-- `WithEmbeddingBatch`: `c.Input = texts`. -/
def WithEmbeddingBatch (texts : List String) : EmbeddingOption :=
  fun c => { c with Input := texts }

/-- `WithEmbeddingDimensions`: `c.Dimensions = &n`. -/
def WithEmbeddingDimensions (n : Int) : EmbeddingOption :=
  fun c => { c with Dimensions := some n }

/-- The struct `Embedding`. -/
structure Embedding where
  Vector : List F32
  Index : Int
deriving DecidableEq, Repr

/-- The struct `Usage`, restricted to the two fields `Embed` fills. -/
structure Usage where
  InputTokens : Int
  TotalTokens : Int
deriving DecidableEq, Repr

/-- The map `ProviderMetadata`: the provider names under which an entry is stored.  The
adapter stores one empty `&ProviderMetadata{}` value, so only the keys are kept. -/
structure ProviderMetadata where
  keys : List String
deriving DecidableEq, Repr

/-- The struct `EmbeddingResponse`. -/
structure EmbeddingResponse where
  Embeddings : List Embedding
  Model : String
  Usage : Usage
  ProviderMetadata : ProviderMetadata
deriving DecidableEq, Repr

/-! ## The transport boundary (`openai-go`) -/

/-- The request `openai.EmbeddingNewParams`: `Input` is the union's `OfArrayOfStrings`
field, `Dimensions` is the optional `param.Opt[int64]`. -/
structure EmbeddingNewParams where
  Model : String
  Input : List String
  Dimensions : Option Int
deriving DecidableEq, Repr

/-- One entry of `response.Data` (`openai.Embedding`). -/
structure RawEmbedding where
  Embedding : List F64
  Index : Int
deriving DecidableEq, Repr

/-- The field `response.Usage`. -/
structure RawUsage where
  PromptTokens : Int
  TotalTokens : Int
deriving DecidableEq, Repr

/-- The response `openai.CreateEmbeddingResponse`. -/
structure CreateEmbeddingResponse where
  Data : List RawEmbedding
  Model : String
  Usage : RawUsage
deriving DecidableEq, Repr

/-- The call `client.Embeddings.New(ctx, params)`: a response or an error. -/
abbrev Transport := EmbeddingNewParams → Except GoError CreateEmbeddingResponse

/-- The package constant `Name` of the adapter; it is declared outside the embedded files
and its value plays no part in any statement below. -/
def Name : String := "openai"

/-! ## Machine integers -/

/-- Two's-complement wrap of an integer into the 64-bit range `[-2^63, 2^63)`. -/
def wrapInt (x : Int) : Int :=
  (x + 2 ^ 63) % 2 ^ 64 - 2 ^ 63

/-- The comparator handed to `slices.SortFunc`: `a.Index - b.Index` on machine integers. -/
def indexCmp (a b : Embedding) : Int :=
  wrapInt (a.Index - b.Index)

/-! ## `slices.SortFunc` -/

section Sorting

variable {α : Type}

/-- The exchange `data[i], data[j] = data[j], data[i]`. -/
def swapAt (data : List α) (i j : Nat) : List α :=
  match data[i]?, data[j]? with
  | some x, some y => (data.set i y).set j x
  | _, _ => data

/-- Inner loop of `insertionSortCmpFunc`, started at `j`:
`for ; j > a && cmp(data[j], data[j-1]) < 0; j-- { swap data[j], data[j-1] }`. -/
def insertionInner (cmp : α → α → Int) (a : Nat) : Nat → List α → List α
  | 0, data => data
  | j + 1, data =>
    if a < j + 1 then
      match data[j + 1]?, data[j]? with
      | some x, some y =>
        if cmp x y < 0 then insertionInner cmp a j (swapAt data (j + 1) j) else data
      | _, _ => data
    else data

/-- Outer loop of `insertionSortCmpFunc`: `count` further iterations of
`for ; i < b; i++`, the next one at `i`. -/
def insertionOuter (cmp : α → α → Int) (a : Nat) : Nat → Nat → List α → List α
  | 0, _, data => data
  | count + 1, i, data => insertionOuter cmp a count (i + 1) (insertionInner cmp a i data)

/-- The library routine `insertionSortCmpFunc(data, a, b, cmp)`: the loop runs for
`i = a+1, ..., b-1`, that is `b - (a+1)` times. -/
def insertionSortCmpFunc (data : List α) (a b : Nat) (cmp : α → α → Int) : List α :=
  insertionOuter cmp a (b - (a + 1)) (a + 1) data

/-- The constant `maxInsertion` of `pdqsortCmpFunc`. -/
def maxInsertion : Nat := 12

/-- The library routine `slices.SortFunc(x, cmp)`: `pdqsortCmpFunc(x, 0, len(x), ...)`
first tests `length <= maxInsertion` and then runs the insertion sort; `pdqLong` is the
remainder of the routine, run on longer slices. -/
def SortFunc (pdqLong : (α → α → Int) → List α → List α) (x : List α)
    (cmp : α → α → Int) : List α :=
  if x.length ≤ maxInsertion then insertionSortCmpFunc x 0 x.length cmp else pdqLong cmp x

/-- The comparator is a strict weak ordering on the elements of `x`: "less", that is
`cmp a b < 0`, is asymmetric and negatively transitive there. -/
structure StrictWeakOn (cmp : α → α → Int) (x : List α) : Prop where
  asymm : ∀ a ∈ x, ∀ b ∈ x, cmp a b < 0 → ¬ cmp b a < 0
  negTrans : ∀ a ∈ x, ∀ b ∈ x, ∀ c ∈ x, ¬ cmp a b < 0 → ¬ cmp b c < 0 → ¬ cmp a c < 0

/-- The documented contract of `slices.SortFunc`, for a routine `sorter`: it rearranges the
slice in place (the result is a permutation of the argument), and when `cmp` is a strict
weak ordering on the elements the result is in ascending order as determined by `cmp`
(no later element is less than an earlier one). -/
structure SortsByCmp (sorter : (α → α → Int) → List α → List α) : Prop where
  perm : ∀ cmp x, (sorter cmp x).Perm x
  sorted : ∀ cmp x, StrictWeakOn cmp x →
    (sorter cmp x).Pairwise (fun a b => ¬ cmp b a < 0)

/-- The insertion sort run over a whole slice, as a routine for slices of any length. -/
def insertionSorter (cmp : α → α → Int) (x : List α) : List α :=
  insertionSortCmpFunc x 0 x.length cmp

/-- Functional reading of the inner loop of the insertion sort: `x` travels down the part of
the slice already handled, listed from its nearest element to its farthest, for as long as
it is less than its neighbour. -/
def sinkInto (cmp : α → α → Int) : List α → α → List α
  | [], x => [x]
  | y :: ys, x => if cmp x y < 0 then y :: sinkInto cmp ys x else x :: y :: ys

end Sorting

/-! ## `provider.Embed` (`providers/openai/embeddings.go`) -/

/-- The fresh call `EmbeddingCall{Model: modelID, Input: []string{}}`. -/
def freshCall (modelID : String) : EmbeddingCall :=
  { Model := modelID, Input := [], Dimensions := none }

/-- The loop `for _, opt := range opts { opt(&call) }`. -/
def applyOptions (opts : List EmbeddingOption) (call : EmbeddingCall) : EmbeddingCall :=
  opts.foldl (fun c opt => opt c) call

/-- Construction of `params`: the model is `modelID`, the input is `call.Input`, and
`Dimensions` is set only under `if call.Dimensions != nil`. -/
def buildParams (modelID : String) (call : EmbeddingCall) : EmbeddingNewParams :=
  let params : EmbeddingNewParams :=
    { Model := modelID, Input := call.Input, Dimensions := none }
  match call.Dimensions with
  | some n => { params with Dimensions := some n }
  | none => params

/-- Body of the loop over `response.Data`: narrow the vector element by element and carry
the index. -/
def toEmbedding (narrow : F64 → F32) (e : RawEmbedding) : Embedding :=
  { Vector := e.Embedding.map narrow, Index := e.Index }

/-- Normalisation of a received response: convert every entry, sort with
`slices.SortFunc` and the comparator `a.Index - b.Index`, wrap with model and usage. -/
def normalize (pdqLong : (Embedding → Embedding → Int) → List Embedding → List Embedding)
    (narrow : F64 → F32) (response : CreateEmbeddingResponse) : EmbeddingResponse :=
  let embeddings := response.Data.map (toEmbedding narrow)
  let embeddings := SortFunc pdqLong embeddings indexCmp
  { Embeddings := embeddings,
    Model := response.Model,
    Usage := { InputTokens := response.Usage.PromptTokens,
               TotalTokens := response.Usage.TotalTokens },
    ProviderMetadata := { keys := [Name] } }

/-- What one call of `Embed` does: the requests handed to the transport, in order, and the
returned pair `(*EmbeddingResponse, error)`. -/
structure EmbedOutcome where
  requests : List EmbeddingNewParams
  result : Except GoError EmbeddingResponse

/-- The method `provider.Embed`. -/
def Embed (pdqLong : (Embedding → Embedding → Int) → List Embedding → List Embedding)
    (narrow : F64 → F32) (transport : Transport) (modelID : String)
    (opts : List EmbeddingOption) : EmbedOutcome :=
  let call := applyOptions opts (freshCall modelID)
  if call.Input.length = 0 then
    { requests := [], result := .error GoError.ErrEmbeddingInputRequired }
  else
    let params := buildParams modelID call
    match transport params with
    | .error err => { requests := [params], result := .error err }
    | .ok response => { requests := [params], result := .ok (normalize pdqLong narrow response) }

/-! ## The built-in options as data -/

/-- The three option constructors of the package, as a value that can be inspected. -/
inductive BuiltinOption where
  | input (text : String) : BuiltinOption
  | batch (texts : List String) : BuiltinOption
  | dimensions (n : Int) : BuiltinOption
deriving DecidableEq, Repr

/-- The option function a built-in option stands for. -/
def BuiltinOption.toOption : BuiltinOption → EmbeddingOption
  | .input text => WithEmbeddingInput text
  | .batch texts => WithEmbeddingBatch texts
  | .dimensions n => WithEmbeddingDimensions n

/-- The input an option sets, if it sets one. -/
def BuiltinOption.inputSet : BuiltinOption → Option (List String)
  | .input text => some [text]
  | .batch texts => some texts
  | .dimensions _ => none

/-- The dimensions an option sets, if it sets them. -/
def BuiltinOption.dimensionsSet : BuiltinOption → Option Int
  | .input _ => none
  | .batch _ => none
  | .dimensions n => some n

/-- Specification side of "last write wins": the value set by the last
`WithEmbeddingInput`/`WithEmbeddingBatch` option of the list, `[]` if there is none. -/
def lastInput (opts : List BuiltinOption) : List String :=
  (opts.reverse.findSome? BuiltinOption.inputSet).getD []

/-- Specification side of "last write wins": the value of the last
`WithEmbeddingDimensions` option of the list, absent if there is none. -/
def lastDimensions (opts : List BuiltinOption) : Option Int :=
  opts.reverse.findSome? BuiltinOption.dimensionsSet

/-! ## Concrete transports and responses used in evaluations -/

/-- An arbitrary instance of the parameter `narrow` for concrete evaluations of statements
that hold for every `narrow`: the low 32 bits of the pattern.  It is not the conversion
`float32(f)`; that conversion is `float32` below. -/
def lowBits (f : F64) : F32 :=
  { bits := f.bits % 2 ^ 32 }

/-- A transport that answers every request with the given response. -/
def respondWith (response : CreateEmbeddingResponse) : Transport :=
  fun _ => .ok response

/-- The response served in `TestEmbed_OutputOrder`: three entries arriving with the
indices 2, 0, 1. -/
def scrambledResponse : CreateEmbeddingResponse :=
  { Data := [{ Embedding := [{ bits := 3 }], Index := 2 },
             { Embedding := [{ bits := 1 }], Index := 0 },
             { Embedding := [{ bits := 2 }], Index := 1 }],
    Model := "text-embedding-3-small",
    Usage := { PromptTokens := 15, TotalTokens := 15 } }

/-- A response with a single entry that reports the index 5. -/
def offsetResponse : CreateEmbeddingResponse :=
  { Data := [{ Embedding := [{ bits := 1 }], Index := 5 }],
    Model := "text-embedding-3-small",
    Usage := { PromptTokens := 5, TotalTokens := 5 } }

/-- A response whose two entries report the indices -1 and 2^63 - 1, in this order. -/
def overflowResponse : CreateEmbeddingResponse :=
  { Data := [{ Embedding := [{ bits := 1 }], Index := -1 },
             { Embedding := [{ bits := 2 }], Index := 9223372036854775807 }],
    Model := "text-embedding-3-small",
    Usage := { PromptTokens := 10, TotalTokens := 10 } }

/-- The same two entries as in `overflowResponse`, arriving in the other order. -/
def overflowResponseSwapped : CreateEmbeddingResponse :=
  { Data := [{ Embedding := [{ bits := 2 }], Index := 9223372036854775807 },
             { Embedding := [{ bits := 1 }], Index := -1 }],
    Model := "text-embedding-3-small",
    Usage := { PromptTokens := 10, TotalTokens := 10 } }

/-- A transport that fails every request with the given error. -/
def failWith (err : GoError) : Transport :=
  fun _ => .error err

/-- A caller-defined option, as the function type `EmbeddingOption` admits: it overwrites
the `Model` field of the call. -/
def overrideModel (model : String) : EmbeddingOption :=
  fun c => { c with Model := model }

/-- A batch of thirteen input texts. -/
def thirteenTexts : List String :=
  ["t0", "t1", "t2", "t3", "t4", "t5", "t6", "t7", "t8", "t9", "t10", "t11", "t12"]

/-- The conversion `float32(f)` of a 64-bit float, on bit patterns: IEEE 754 binary64 to
binary32, rounding to nearest with ties to even.  A NaN stays a NaN (quiet, with the high
bits of its payload, as the amd64 conversion instruction gives it); a binary64 subnormal is
below half of the least binary32 subnormal and becomes a zero; a magnitude that rounds
beyond the largest binary32 value becomes an infinity. -/
def float32 (f : F64) : F32 :=
  let b := f.bits % 2 ^ 64
  let sign := b / 2 ^ 63
  let e := (b / 2 ^ 52) % 2 ^ 11
  let m := b % 2 ^ 52
  let magnitude : Nat :=
    if e = 2047 then
      if m = 0 then 2139095040 else 2143289344 ||| (m / 2 ^ 29)
    else if e = 0 then 0
    else
      let sig := 2 ^ 52 + m
      let k := if 896 < e then 29 else 926 - e
      let q := sig / 2 ^ k
      let r := sig % 2 ^ k
      let up := if 2 ^ (k - 1) < r ∨ (r = 2 ^ (k - 1) ∧ q % 2 = 1) then 1 else 0
      let rounded := (if 896 < e then (e - 897) * 2 ^ 23 else 0) + q + up
      if 2139095040 ≤ rounded then 2139095040 else rounded
  { bits := sign * 2 ^ 31 + magnitude }

/-- A response with thirteen entries: the indices 0 to 11 are all reported, and the index 6
is reported twice, by the first entry and by the seventh entry.  The entry arriving at
position `k` carries the one-element vector `[k + 1]`, as the bit pattern of the 64-bit
float: 1.0 for the first entry, 7.0 for the seventh. -/
def duplicateIndexResponse : CreateEmbeddingResponse :=
  { Data := [{ Embedding := [{ bits := 4607182418800017408 }], Index := 6 },
             { Embedding := [{ bits := 4611686018427387904 }], Index := 1 },
             { Embedding := [{ bits := 4613937818241073152 }], Index := 2 },
             { Embedding := [{ bits := 4616189618054758400 }], Index := 3 },
             { Embedding := [{ bits := 4617315517961601024 }], Index := 4 },
             { Embedding := [{ bits := 4618441417868443648 }], Index := 5 },
             { Embedding := [{ bits := 4619567317775286272 }], Index := 6 },
             { Embedding := [{ bits := 4620693217682128896 }], Index := 7 },
             { Embedding := [{ bits := 4621256167635550208 }], Index := 8 },
             { Embedding := [{ bits := 4621819117588971520 }], Index := 9 },
             { Embedding := [{ bits := 4622382067542392832 }], Index := 10 },
             { Embedding := [{ bits := 4622945017495814144 }], Index := 11 },
             { Embedding := [{ bits := 4623507967449235456 }], Index := 0 }],
    Model := "text-embedding-3-small",
    Usage := { PromptTokens := 26, TotalTokens := 26 } }

/-- A response with four entries in which each of the indices 1 and 0 is reported twice:
the entries arrive as (index 1, vector [2.0]), (index 0, vector [1.0]),
(index 1, vector [3.0]), (index 0, vector [4.0]), the vectors given as bit patterns of
64-bit floats. -/
def repeatedIndexResponse : CreateEmbeddingResponse :=
  { Data := [{ Embedding := [{ bits := 4611686018427387904 }], Index := 1 },
             { Embedding := [{ bits := 4607182418800017408 }], Index := 0 },
             { Embedding := [{ bits := 4613937818241073152 }], Index := 1 },
             { Embedding := [{ bits := 4616189618054758400 }], Index := 0 }],
    Model := "text-embedding-3-small",
    Usage := { PromptTokens := 8, TotalTokens := 8 } }

/-- A routine for long slices that meets the contract of `slices.SortFunc` and does not keep
the arrival order of equal elements: the insertion sort run on the reversed slice.  The
library's documentation states that `SortFunc` "is not guaranteed to be stable".  On the
entries of `duplicateIndexResponse` the result is the one the library's quicksort step
produces as well: the pivot is the entry at position 6, the partition first exchanges it
with the entry at position 0, which reports the same index, and neither of the two is
moved past the other again. -/
def reversedInsertionSorter {α : Type} (cmp : α → α → Int) (x : List α) : List α :=
  insertionSorter cmp x.reverse

/-! ## Correctness of the insertion sort -/

section SortingLemmas

variable {α : Type}

theorem getElem?_append_length (l r : List α) (y : α) :
    (l ++ y :: r)[l.length]? = some y := by
  induction l with
  | nil => simp
  | cons a l ih => simpa using ih

theorem getElem?_append_length_succ (l r : List α) (y x : α) :
    (l ++ y :: x :: r)[l.length + 1]? = some x := by
  induction l with
  | nil => simp
  | cons a l ih => simpa using ih

theorem swapAt_adjacent (l r : List α) (y x : α) :
    swapAt (l ++ y :: x :: r) (l.length + 1) l.length = l ++ x :: y :: r := by
  induction l with
  | nil => simp [swapAt]
  | cons a l ih =>
    unfold swapAt at ih ⊢
    rw [getElem?_append_length_succ, getElem?_append_length] at ih
    have h1 : (a :: l ++ y :: x :: r)[(a :: l).length + 1]? = some x := by
      simpa using getElem?_append_length_succ l r y x
    have h2 : (a :: l ++ y :: x :: r)[(a :: l).length]? = some y := by
      simpa using getElem?_append_length l (x :: r) y
    rw [h1, h2]
    simp only [List.cons_append, List.length_cons, List.set_cons_succ] at ih ⊢
    simp only [ih]

theorem length_sinkInto (cmp : α → α → Int) (rp : List α) (x : α) :
    (sinkInto cmp rp x).length = rp.length + 1 := by
  induction rp with
  | nil => simp [sinkInto]
  | cons y ys ih =>
    unfold sinkInto
    split <;> simp [ih]

theorem insertionInner_eq (cmp : α → α → Int) (rp suf : List α) (x : α) :
    insertionInner cmp 0 rp.length (rp.reverse ++ x :: suf)
      = (sinkInto cmp rp x).reverse ++ suf := by
  induction rp generalizing suf with
  | nil => simp [insertionInner, sinkInto]
  | cons y ys ih =>
    have hd : (y :: ys).reverse ++ x :: suf = ys.reverse ++ y :: x :: suf := by simp
    have hl : (y :: ys).length = ys.reverse.length + 1 := by simp
    rw [hd, hl]
    unfold insertionInner
    rw [getElem?_append_length_succ, getElem?_append_length]
    simp only [Nat.zero_lt_succ, if_true]
    by_cases hc : cmp x y < 0
    · rw [if_pos hc, swapAt_adjacent, List.length_reverse, ih (y :: suf)]
      simp [sinkInto, hc]
    · rw [if_neg hc]
      simp [sinkInto, hc]

theorem insertionOuter_eq (cmp : α → α → Int) (suf rp : List α) :
    insertionOuter cmp 0 suf.length rp.length (rp.reverse ++ suf)
      = (suf.foldl (sinkInto cmp) rp).reverse := by
  induction suf generalizing rp with
  | nil => simp [insertionOuter]
  | cons x suf ih =>
    simp only [List.length_cons, insertionOuter, List.foldl_cons]
    rw [insertionInner_eq, ← length_sinkInto cmp rp x, ih]

theorem insertionSorter_eq (cmp : α → α → Int) (x : List α) :
    insertionSorter cmp x = (x.foldl (sinkInto cmp) []).reverse := by
  cases x with
  | nil => simp [insertionSorter, insertionSortCmpFunc, insertionOuter]
  | cons a l =>
    have h := insertionOuter_eq cmp l [a]
    simpa [insertionSorter, insertionSortCmpFunc, sinkInto] using h

theorem perm_sinkInto (cmp : α → α → Int) (rp : List α) (x : α) :
    (sinkInto cmp rp x).Perm (x :: rp) := by
  induction rp with
  | nil => simp [sinkInto]
  | cons y ys ih =>
    unfold sinkInto
    split
    · exact (List.Perm.cons y ih).trans (List.Perm.swap x y ys)
    · exact List.Perm.refl _

theorem perm_foldl_sinkInto (cmp : α → α → Int) (suf rp : List α) :
    (suf.foldl (sinkInto cmp) rp).Perm (rp ++ suf) := by
  induction suf generalizing rp with
  | nil => simp
  | cons x suf ih =>
    simp only [List.foldl_cons]
    refine (ih _).trans ?_
    refine (List.Perm.append_right suf (perm_sinkInto cmp rp x)).trans ?_
    simpa using (@List.perm_middle _ x rp suf).symm

theorem pairwise_sinkInto (cmp : α → α → Int) (X : List α) (hsw : StrictWeakOn cmp X)
    (rp : List α) (x : α) (hx : x ∈ X) (hrp : ∀ y ∈ rp, y ∈ X)
    (hp : rp.Pairwise (fun u v => ¬ cmp u v < 0)) :
    (sinkInto cmp rp x).Pairwise (fun u v => ¬ cmp u v < 0) := by
  induction rp with
  | nil => simp [sinkInto]
  | cons y ys ih =>
    have hy : y ∈ X := hrp y (List.mem_cons_self _ _)
    have hys : ∀ z ∈ ys, z ∈ X := fun z hz => hrp z (List.mem_cons_of_mem _ hz)
    rw [List.pairwise_cons] at hp
    unfold sinkInto
    by_cases hc : cmp x y < 0
    · rw [if_pos hc, List.pairwise_cons]
      refine ⟨?_, ih hys hp.2⟩
      intro z hz
      rcases List.mem_cons.mp ((perm_sinkInto cmp ys x).mem_iff.mp hz) with rfl | hz
      · exact hsw.asymm _ hx _ hy hc
      · exact hp.1 z hz
    · rw [if_neg hc, List.pairwise_cons, List.pairwise_cons]
      refine ⟨?_, hp⟩
      intro z hz
      rcases List.mem_cons.mp hz with rfl | hz
      · exact hc
      · exact hsw.negTrans _ hx _ hy _ (hys z hz) hc (hp.1 z hz)

theorem pairwise_foldl_sinkInto (cmp : α → α → Int) (X : List α) (hsw : StrictWeakOn cmp X)
    (suf rp : List α) (hsuf : ∀ y ∈ suf, y ∈ X) (hrp : ∀ y ∈ rp, y ∈ X)
    (hp : rp.Pairwise (fun u v => ¬ cmp u v < 0)) :
    (suf.foldl (sinkInto cmp) rp).Pairwise (fun u v => ¬ cmp u v < 0) := by
  induction suf generalizing rp with
  | nil => simpa using hp
  | cons x suf ih =>
    simp only [List.foldl_cons]
    have hx : x ∈ X := hsuf x (List.mem_cons_self _ _)
    refine ih _ (fun y hy => hsuf y (List.mem_cons_of_mem _ hy)) ?_
      (pairwise_sinkInto cmp X hsw rp x hx hrp hp)
    intro y hy
    rcases List.mem_cons.mp ((perm_sinkInto cmp rp x).mem_iff.mp hy) with rfl | hy
    · exact hx
    · exact hrp y hy

/-- The insertion sort meets the contract of `slices.SortFunc` on slices of every length. -/
theorem insertionSorter_sortsByCmp : SortsByCmp (@insertionSorter α) where
  perm := by
    intro cmp x
    rw [insertionSorter_eq]
    exact (List.reverse_perm _).trans (by simpa using perm_foldl_sinkInto cmp x [])
  sorted := by
    intro cmp x hsw
    rw [insertionSorter_eq, List.pairwise_reverse]
    exact pairwise_foldl_sinkInto cmp x hsw x [] (fun _ h => h) (by simp) List.Pairwise.nil

theorem SortFunc_perm {pdqLong : (α → α → Int) → List α → List α}
    (hs : SortsByCmp pdqLong) (x : List α) (cmp : α → α → Int) :
    (SortFunc pdqLong x cmp).Perm x := by
  unfold SortFunc
  split
  · exact insertionSorter_sortsByCmp.perm cmp x
  · exact hs.perm cmp x

theorem SortFunc_sorted {pdqLong : (α → α → Int) → List α → List α}
    (hs : SortsByCmp pdqLong) (x : List α) (cmp : α → α → Int) (hsw : StrictWeakOn cmp x) :
    (SortFunc pdqLong x cmp).Pairwise (fun a b => ¬ cmp b a < 0) := by
  unfold SortFunc
  split
  · exact insertionSorter_sortsByCmp.sorted cmp x hsw
  · exact hs.sorted cmp x hsw

end SortingLemmas

/-! ## The comparator on machine integers -/

theorem wrapInt_of_inRange (x : Int) (hlo : -(2 ^ 63) ≤ x) (hhi : x < 2 ^ 63) :
    wrapInt x = x := by
  unfold wrapInt
  have h : (x + 2 ^ 63) % 2 ^ 64 = x + 2 ^ 63 :=
    Int.emod_eq_of_lt (by omega) (by omega)
  omega

theorem indexCmp_neg_iff (a b : Embedding) (ha : 0 ≤ a.Index ∧ a.Index < 2 ^ 63)
    (hb : 0 ≤ b.Index ∧ b.Index < 2 ^ 63) :
    indexCmp a b < 0 ↔ a.Index < b.Index := by
  unfold indexCmp
  rw [wrapInt_of_inRange _ (by omega) (by omega)]
  omega

theorem indexCmp_strictWeakOn (x : List Embedding)
    (hx : ∀ e ∈ x, 0 ≤ e.Index ∧ e.Index < 2 ^ 63) : StrictWeakOn indexCmp x where
  asymm := by
    intro a ha b hb h
    rw [indexCmp_neg_iff _ _ (hx a ha) (hx b hb)] at h
    rw [indexCmp_neg_iff _ _ (hx b hb) (hx a ha)]
    omega
  negTrans := by
    intro a ha b hb c hc h1 h2
    rw [indexCmp_neg_iff _ _ (hx a ha) (hx b hb)] at h1
    rw [indexCmp_neg_iff _ _ (hx b hb) (hx c hc)] at h2
    rw [indexCmp_neg_iff _ _ (hx a ha) (hx c hc)]
    omega

/-! ## Shape of a call of `Embed` -/

theorem Embed_of_input_empty
    (pdqLong : (Embedding → Embedding → Int) → List Embedding → List Embedding)
    (narrow : F64 → F32) (transport : Transport) (modelID : String)
    (opts : List EmbeddingOption)
    (h : (applyOptions opts (freshCall modelID)).Input = []) :
    Embed pdqLong narrow transport modelID opts
      = { requests := [], result := .error GoError.ErrEmbeddingInputRequired } := by
  simp [Embed, h]

theorem Embed_of_response
    (pdqLong : (Embedding → Embedding → Int) → List Embedding → List Embedding)
    (narrow : F64 → F32) (transport : Transport) (modelID : String)
    (opts : List EmbeddingOption) (response : CreateEmbeddingResponse)
    (hin : (applyOptions opts (freshCall modelID)).Input ≠ [])
    (htr : transport (buildParams modelID (applyOptions opts (freshCall modelID)))
      = .ok response) :
    Embed pdqLong narrow transport modelID opts
      = { requests := [buildParams modelID (applyOptions opts (freshCall modelID))],
          result := .ok (normalize pdqLong narrow response) } := by
  simp [Embed, hin, htr]

theorem Embed_requests_of_input
    (pdqLong : (Embedding → Embedding → Int) → List Embedding → List Embedding)
    (narrow : F64 → F32) (transport : Transport) (modelID : String)
    (opts : List EmbeddingOption)
    (hin : (applyOptions opts (freshCall modelID)).Input ≠ []) :
    (Embed pdqLong narrow transport modelID opts).requests
      = [buildParams modelID (applyOptions opts (freshCall modelID))] := by
  unfold Embed
  simp only [List.length_eq_zero, hin, if_false]
  split <;> rfl

theorem normalize_perm
    {pdqLong : (Embedding → Embedding → Int) → List Embedding → List Embedding}
    (hs : SortsByCmp pdqLong) (narrow : F64 → F32) (response : CreateEmbeddingResponse) :
    (normalize pdqLong narrow response).Embeddings.Perm
      (response.Data.map (toEmbedding narrow)) :=
  SortFunc_perm hs _ _

theorem normalize_index_perm
    {pdqLong : (Embedding → Embedding → Int) → List Embedding → List Embedding}
    (hs : SortsByCmp pdqLong) (narrow : F64 → F32) (response : CreateEmbeddingResponse) :
    ((normalize pdqLong narrow response).Embeddings.map (fun e => e.Index)).Perm
      (response.Data.map (fun r => r.Index)) := by
  have h := (normalize_perm hs narrow response).map (fun e => e.Index)
  simpa [List.map_map, Function.comp_def, toEmbedding] using h

theorem normalize_sorted
    {pdqLong : (Embedding → Embedding → Int) → List Embedding → List Embedding}
    (hs : SortsByCmp pdqLong) (narrow : F64 → F32) (response : CreateEmbeddingResponse)
    (hr : ∀ r ∈ response.Data, 0 ≤ r.Index ∧ r.Index < 2 ^ 63) :
    (normalize pdqLong narrow response).Embeddings.Pairwise
      (fun a b => a.Index ≤ b.Index) := by
  have hx : ∀ e ∈ response.Data.map (toEmbedding narrow),
      0 ≤ e.Index ∧ e.Index < 2 ^ 63 := by
    intro e he
    rcases List.mem_map.mp he with ⟨r, hr1, rfl⟩
    exact hr r hr1
  have hsorted := SortFunc_sorted hs _ indexCmp (indexCmp_strictWeakOn _ hx)
  have hmem : ∀ e ∈ (normalize pdqLong narrow response).Embeddings,
      0 ≤ e.Index ∧ e.Index < 2 ^ 63 :=
    fun e he => hx e ((normalize_perm hs narrow response).mem_iff.mp he)
  refine List.Pairwise.imp_of_mem ?_ hsorted
  intro a b ha hb hab
  rw [indexCmp_neg_iff _ _ (hmem b hb) (hmem a ha)] at hab
  omega

/-! ## Claims -/

theorem ordered_indices_eq_range (l : List Int) (N : Nat)
    (hp : l.Perm ((List.range N).map Int.ofNat))
    (hs : l.Pairwise (fun a b => a ≤ b)) :
    l = (List.range N).map Int.ofNat := by
  have hr : ((List.range N).map Int.ofNat).Pairwise (fun a b => a ≤ b) := by
    rw [List.pairwise_map]
    exact (List.pairwise_le_range N).imp (fun h => Int.ofNat_le.mpr h)
  exact List.eq_of_perm_of_sorted hp hs hr

/-- C1 (ordering invariant): when the input is non-empty and the transport answers with a
response whose `N` data entries carry, in any arrival order, the indices `0..N-1`, `Embed`
returns a result whose `Embeddings` has length `N` and has `Embeddings[k].Index = k` for
every `k < N`.  `N` is the length of a slice, hence a machine integer. -/
theorem Embed_ordering_invariant
    (pdqLong : (Embedding → Embedding → Int) → List Embedding → List Embedding)
    (hs : SortsByCmp pdqLong) (narrow : F64 → F32) (transport : Transport)
    (modelID : String) (opts : List EmbeddingOption) (response : CreateEmbeddingResponse)
    (N : Nat)
    (hin : (applyOptions opts (freshCall modelID)).Input ≠ [])
    (htr : transport (buildParams modelID (applyOptions opts (freshCall modelID)))
      = .ok response)
    (hperm : (response.Data.map (fun r => r.Index)).Perm
      ((List.range N).map Int.ofNat))
    (hmach : N < 2 ^ 63) :
    ∃ res, (Embed pdqLong narrow transport modelID opts).result = .ok res ∧
      res.Embeddings.length = N ∧
      ∀ k : Nat, k < N → (res.Embeddings[k]?).map (fun e => e.Index) = some (Int.ofNat k) := by
  refine ⟨normalize pdqLong narrow response, ?_, ?_, ?_⟩
  · rw [Embed_of_response pdqLong narrow transport modelID opts response hin htr]
  · have h := (normalize_index_perm hs narrow response).trans hperm
    simpa using h.length_eq
  · have hr : ∀ r ∈ response.Data, 0 ≤ r.Index ∧ r.Index < 2 ^ 63 := by
      intro r hr
      have hm : r.Index ∈ (List.range N).map Int.ofNat :=
        hperm.mem_iff.mp (List.mem_map.mpr ⟨r, hr, rfl⟩)
      rcases List.mem_map.mp hm with ⟨k, hk, hk2⟩
      have hk3 : k < N := List.mem_range.mp hk
      constructor
      · have h5 : Int.ofNat k = (k : Int) := rfl
        omega
      · have h4 : k < 2 ^ 63 := lt_trans hk3 hmach
        have h5 : Int.ofNat k = (k : Int) := rfl
        omega
    have hsorted := normalize_sorted hs narrow response hr
    have heq := ordered_indices_eq_range
      ((normalize pdqLong narrow response).Embeddings.map (fun e => e.Index)) N
      ((normalize_index_perm hs narrow response).trans hperm)
      (by rw [List.pairwise_map]; exact hsorted)
    intro k hk
    rw [← List.getElem?_map, heq, List.getElem?_map, List.getElem?_range hk]
    rfl

theorem Embed_ordering_invariant_witness :
    (applyOptions [WithEmbeddingBatch ["a", "b", "c"]]
        (freshCall "text-embedding-3-small")).Input ≠ [] ∧
    (scrambledResponse.Data.map (fun r => r.Index)).Perm
      ((List.range 3).map Int.ofNat) ∧
    ∃ res, (Embed insertionSorter lowBits (respondWith scrambledResponse)
        "text-embedding-3-small" [WithEmbeddingBatch ["a", "b", "c"]]).result = .ok res ∧
      res.Embeddings.length = 3 ∧
      ∀ k : Nat, k < 3 → (res.Embeddings[k]?).map (fun e => e.Index) = some (Int.ofNat k) :=
  ⟨by decide, by decide,
   Embed_ordering_invariant insertionSorter insertionSorter_sortsByCmp lowBits
     (respondWith scrambledResponse) "text-embedding-3-small"
     [WithEmbeddingBatch ["a", "b", "c"]] scrambledResponse 3
     (by decide) rfl (by decide) (by norm_num)⟩

/-- C2 (empty-input precondition): whenever the options, applied in order to the fresh call,
leave `Input` empty, `Embed` hands no request to the transport and returns no result and
exactly the error `ErrEmbeddingInputRequired`. -/
theorem Embed_empty_input_required
    (pdqLong : (Embedding → Embedding → Int) → List Embedding → List Embedding)
    (narrow : F64 → F32) (transport : Transport) (modelID : String)
    (opts : List EmbeddingOption)
    (h : (applyOptions opts (freshCall modelID)).Input = []) :
    (Embed pdqLong narrow transport modelID opts).requests = [] ∧
    (Embed pdqLong narrow transport modelID opts).result
      = .error GoError.ErrEmbeddingInputRequired := by
  rw [Embed_of_input_empty pdqLong narrow transport modelID opts h]
  exact ⟨rfl, rfl⟩

theorem Embed_empty_input_required_witness :
    (applyOptions [WithEmbeddingInput "x", WithEmbeddingDimensions 256, WithEmbeddingBatch []]
      (freshCall "text-embedding-3-small")).Input = [] ∧
    (Embed insertionSorter lowBits (respondWith scrambledResponse) "text-embedding-3-small"
      [WithEmbeddingInput "x", WithEmbeddingDimensions 256, WithEmbeddingBatch []]).requests
      = [] ∧
    (Embed insertionSorter lowBits (respondWith scrambledResponse) "text-embedding-3-small"
      [WithEmbeddingInput "x", WithEmbeddingDimensions 256, WithEmbeddingBatch []]).result
      = .error GoError.ErrEmbeddingInputRequired :=
  ⟨by decide,
   Embed_empty_input_required insertionSorter lowBits (respondWith scrambledResponse)
     "text-embedding-3-small"
     [WithEmbeddingInput "x", WithEmbeddingDimensions 256, WithEmbeddingBatch []]
     (by decide)⟩

theorem applyOptions_builtin (opts : List BuiltinOption) (c : EmbeddingCall) :
    applyOptions (opts.map BuiltinOption.toOption) c
      = { Model := c.Model,
          Input := (opts.reverse.findSome? BuiltinOption.inputSet).getD c.Input,
          Dimensions := (opts.reverse.findSome? BuiltinOption.dimensionsSet).or
            c.Dimensions } := by
  induction opts generalizing c with
  | nil => simp [applyOptions]
  | cons o rest ih =>
    have hstep : applyOptions ((o :: rest).map BuiltinOption.toOption) c
        = applyOptions (rest.map BuiltinOption.toOption) (o.toOption c) := by
      simp [applyOptions]
    rw [hstep, ih, List.reverse_cons, List.findSome?_append, List.findSome?_append]
    cases o <;>
      cases h1 : List.findSome? BuiltinOption.inputSet rest.reverse <;>
      cases h2 : List.findSome? BuiltinOption.dimensionsSet rest.reverse <;>
      simp [BuiltinOption.toOption, BuiltinOption.inputSet, BuiltinOption.dimensionsSet,
        WithEmbeddingInput, WithEmbeddingBatch, WithEmbeddingDimensions]

theorem applyOptions_builtin_fresh (modelID : String) (opts : List BuiltinOption) :
    applyOptions (opts.map BuiltinOption.toOption) (freshCall modelID)
      = { Model := modelID, Input := lastInput opts, Dimensions := lastDimensions opts } := by
  rw [applyOptions_builtin]
  simp [freshCall, lastInput, lastDimensions]

/-- C3 (last write wins): applying any list of built-in options in order to the fresh call
`{Model: modelID, Input: []}` yields the call whose `Input` is the value set by the last
`WithEmbeddingInput`/`WithEmbeddingBatch` option (`[]` if there is none) and whose
`Dimensions` is the value of the last `WithEmbeddingDimensions` option (absent if there is
none); in particular `WithEmbeddingInput(t)` after `WithEmbeddingBatch(ts)` leaves
`Input = [t]`. -/
theorem applyOptions_last_write_wins (modelID : String) (opts : List BuiltinOption) :
    applyOptions (opts.map BuiltinOption.toOption) (freshCall modelID)
      = { Model := modelID, Input := lastInput opts, Dimensions := lastDimensions opts } ∧
    ∀ (ts : List String) (t : String),
      (applyOptions [WithEmbeddingBatch ts, WithEmbeddingInput t]
        (freshCall modelID)).Input = [t] :=
  ⟨applyOptions_builtin_fresh modelID opts, fun _ _ => rfl⟩

/-- C4 (single-field updates): `WithEmbeddingInput(text)` sets `Input` to `[text]`,
`WithEmbeddingBatch(texts)` sets `Input` to `texts` verbatim, `WithEmbeddingDimensions(n)`
sets `Dimensions` to a present `n`; each leaves the other two fields of the call as they
were. -/
theorem builtin_options_single_field (c : EmbeddingCall) (text : String)
    (texts : List String) (n : Int) :
    WithEmbeddingInput text c
      = { Model := c.Model, Input := [text], Dimensions := c.Dimensions } ∧
    WithEmbeddingBatch texts c
      = { Model := c.Model, Input := texts, Dimensions := c.Dimensions } ∧
    WithEmbeddingDimensions n c
      = { Model := c.Model, Input := c.Input, Dimensions := some n } :=
  ⟨rfl, rfl, rfl⟩

theorem lastDimensions_of_absent (opts : List BuiltinOption)
    (h : ∀ n, BuiltinOption.dimensions n ∉ opts) : lastDimensions opts = none := by
  unfold lastDimensions
  rw [List.findSome?_eq_none_iff]
  intro o ho
  cases o with
  | input text => rfl
  | batch texts => rfl
  | dimensions n => exact absurd (List.mem_reverse.mp ho) (h n)

theorem lastDimensions_of_last (before after : List BuiltinOption) (n : Int)
    (h : ∀ m, BuiltinOption.dimensions m ∉ after) :
    lastDimensions (before ++ BuiltinOption.dimensions n :: after) = some n := by
  have h0 := lastDimensions_of_absent after h
  unfold lastDimensions at h0 ⊢
  rw [List.reverse_append, List.reverse_cons, List.findSome?_append, List.findSome?_append,
    h0]
  simp [BuiltinOption.dimensionsSet]

/-- C5 (dimensions passthrough): for every list of built-in options that leaves `Input`
non-empty, exactly one request is handed to the transport, and its `Dimensions` field is
the value of the last `WithEmbeddingDimensions` option: present and equal to `n` when that
option carries `n`, absent when the list has no such option. -/
theorem Embed_dimensions_passthrough
    (pdqLong : (Embedding → Embedding → Int) → List Embedding → List Embedding)
    (narrow : F64 → F32) (transport : Transport) (modelID : String)
    (opts : List BuiltinOption)
    (hin : (applyOptions (opts.map BuiltinOption.toOption) (freshCall modelID)).Input ≠ []) :
    ∃ p, (Embed pdqLong narrow transport modelID
        (opts.map BuiltinOption.toOption)).requests = [p] ∧
      p.Dimensions = lastDimensions opts ∧
      ((∀ n, BuiltinOption.dimensions n ∉ opts) → p.Dimensions = none) ∧
      (∀ (before after : List BuiltinOption) (n : Int),
        opts = before ++ BuiltinOption.dimensions n :: after →
        (∀ m, BuiltinOption.dimensions m ∉ after) → p.Dimensions = some n) := by
  have hp : (buildParams modelID
      (applyOptions (opts.map BuiltinOption.toOption) (freshCall modelID))).Dimensions
      = lastDimensions opts := by
    rw [applyOptions_builtin_fresh modelID opts]
    unfold buildParams
    cases lastDimensions opts <;> rfl
  refine ⟨_, Embed_requests_of_input pdqLong narrow transport modelID _ hin, hp, ?_, ?_⟩
  · intro h
    rw [hp, lastDimensions_of_absent opts h]
  · intro before after n he h
    rw [hp, he, lastDimensions_of_last before after n h]

theorem Embed_dimensions_passthrough_witness :
    (applyOptions ([BuiltinOption.input "The quick brown fox",
        BuiltinOption.dimensions 256].map BuiltinOption.toOption)
      (freshCall "text-embedding-3-small")).Input ≠ [] ∧
    ∃ p, (Embed insertionSorter lowBits (respondWith scrambledResponse)
        "text-embedding-3-small"
        ([BuiltinOption.input "The quick brown fox",
          BuiltinOption.dimensions 256].map BuiltinOption.toOption)).requests = [p] ∧
      p.Dimensions = some 256 :=
  ⟨by decide,
   (Embed_dimensions_passthrough insertionSorter lowBits (respondWith scrambledResponse)
      "text-embedding-3-small"
      [BuiltinOption.input "The quick brown fox", BuiltinOption.dimensions 256]
      (by decide)).imp (fun _ h => ⟨h.1, h.2.1.trans (by decide)⟩)⟩

/-- C6, as the claim states it, fails: a single input text answered by a response with three
data entries yields a result with three embeddings. -/
theorem Embed_cardinality_counterexample :
    ∃ res, (Embed insertionSorter lowBits (respondWith scrambledResponse)
        "text-embedding-3-small" [WithEmbeddingInput "The quick brown fox"]).result
        = .ok res ∧
      (applyOptions [WithEmbeddingInput "The quick brown fox"]
        (freshCall "text-embedding-3-small")).Input.length = 1 ∧
      res.Embeddings.length = 3 :=
  ⟨_, rfl, by decide, by decide⟩

/-- C6 (cardinality, amended): for every successful `Embed` call the number of embeddings in
the result equals the number of data entries of the backend response, and the embeddings
are a rearrangement of the converted entries (none dropped, none duplicated); it equals
the number of input texts when the backend returns one entry per input text. -/
theorem Embed_cardinality_of_response
    (pdqLong : (Embedding → Embedding → Int) → List Embedding → List Embedding)
    (hs : SortsByCmp pdqLong) (narrow : F64 → F32) (transport : Transport)
    (modelID : String) (opts : List EmbeddingOption) (response : CreateEmbeddingResponse)
    (hin : (applyOptions opts (freshCall modelID)).Input ≠ [])
    (htr : transport (buildParams modelID (applyOptions opts (freshCall modelID)))
      = .ok response) :
    ∃ res, (Embed pdqLong narrow transport modelID opts).result = .ok res ∧
      res.Embeddings.length = response.Data.length ∧
      res.Embeddings.Perm (response.Data.map (toEmbedding narrow)) ∧
      (response.Data.length = (applyOptions opts (freshCall modelID)).Input.length →
        res.Embeddings.length = (applyOptions opts (freshCall modelID)).Input.length) := by
  have hlen : (normalize pdqLong narrow response).Embeddings.length
      = response.Data.length := by
    simpa using (normalize_perm hs narrow response).length_eq
  refine ⟨normalize pdqLong narrow response, ?_, hlen, normalize_perm hs narrow response, ?_⟩
  · rw [Embed_of_response pdqLong narrow transport modelID opts response hin htr]
  · intro h
    rw [hlen, h]

theorem Embed_cardinality_of_response_witness :
    (applyOptions [WithEmbeddingBatch ["a", "b", "c"]]
        (freshCall "text-embedding-3-small")).Input ≠ [] ∧
    ∃ res, (Embed insertionSorter lowBits (respondWith scrambledResponse)
        "text-embedding-3-small" [WithEmbeddingBatch ["a", "b", "c"]]).result = .ok res ∧
      res.Embeddings.length = 3 :=
  ⟨by decide,
   (Embed_cardinality_of_response insertionSorter insertionSorter_sortsByCmp lowBits
      (respondWith scrambledResponse) "text-embedding-3-small"
      [WithEmbeddingBatch ["a", "b", "c"]] scrambledResponse (by decide) rfl).imp
     (fun _ h => ⟨h.1, h.2.1⟩)⟩

/-- C7, as the claim states it, fails: a single input text answered by one entry that
reports the index 5 yields a result whose only index is 5, not 0. -/
theorem Embed_index_set_counterexample :
    ∃ res, (Embed insertionSorter lowBits (respondWith offsetResponse)
        "text-embedding-3-small" [WithEmbeddingInput "The quick brown fox"]).result
        = .ok res ∧
      res.Embeddings.map (fun e => e.Index) = [5] ∧
      (List.range (applyOptions [WithEmbeddingInput "The quick brown fox"]
        (freshCall "text-embedding-3-small")).Input.length).map Int.ofNat = [0] :=
  ⟨_, rfl, by decide, by decide⟩

/-- C7 (index set, amended): within every result returned by a successful `Embed` call the
`Index` values of the embeddings are exactly the indices reported by the data entries of
the backend response, each as often as the backend reported it; hence they are the
integers `0..len(input)-1`, each once, exactly when the reported indices are. -/
theorem Embed_index_set_of_response
    (pdqLong : (Embedding → Embedding → Int) → List Embedding → List Embedding)
    (hs : SortsByCmp pdqLong) (narrow : F64 → F32) (transport : Transport)
    (modelID : String) (opts : List EmbeddingOption) (response : CreateEmbeddingResponse)
    (hin : (applyOptions opts (freshCall modelID)).Input ≠ [])
    (htr : transport (buildParams modelID (applyOptions opts (freshCall modelID)))
      = .ok response) :
    ∃ res, (Embed pdqLong narrow transport modelID opts).result = .ok res ∧
      (res.Embeddings.map (fun e => e.Index)).Perm (response.Data.map (fun r => r.Index)) ∧
      ((res.Embeddings.map (fun e => e.Index)).Perm
          ((List.range (applyOptions opts (freshCall modelID)).Input.length).map Int.ofNat) ↔
        (response.Data.map (fun r => r.Index)).Perm
          ((List.range (applyOptions opts (freshCall modelID)).Input.length).map
            Int.ofNat)) := by
  have hp := normalize_index_perm hs narrow response
  refine ⟨normalize pdqLong narrow response, ?_, hp, ?_⟩
  · rw [Embed_of_response pdqLong narrow transport modelID opts response hin htr]
  · exact ⟨fun h => hp.symm.trans h, fun h => hp.trans h⟩

theorem Embed_index_set_of_response_witness :
    (applyOptions [WithEmbeddingBatch ["a", "b", "c"]]
        (freshCall "text-embedding-3-small")).Input ≠ [] ∧
    ∃ res, (Embed insertionSorter lowBits (respondWith scrambledResponse)
        "text-embedding-3-small" [WithEmbeddingBatch ["a", "b", "c"]]).result = .ok res ∧
      (res.Embeddings.map (fun e => e.Index)).Perm [2, 0, 1] :=
  ⟨by decide,
   (Embed_index_set_of_response insertionSorter insertionSorter_sortsByCmp lowBits
      (respondWith scrambledResponse) "text-embedding-3-small"
      [WithEmbeddingBatch ["a", "b", "c"]] scrambledResponse (by decide) rfl).imp
     (fun _ h => ⟨h.1, h.2.1⟩)⟩

theorem eq_of_mem_of_index_eq (f : RawEmbedding → Embedding)
    (hf : ∀ r, (f r).Index = r.Index) (data : List RawEmbedding)
    (hnd : (data.map (fun r => r.Index)).Nodup) (r s : RawEmbedding)
    (hr : r ∈ data) (hs : s ∈ data) (h : (f s).Index = r.Index) : s = r := by
  rw [hf s] at h
  exact List.inj_on_of_nodup_map hnd hs hr h

/-- C8 (vectors stay attached): for every backend response of a successful call, the
returned `Embeddings` are a rearrangement of the raw data entries mapped one to one, each
raw entry `(i, v)` becoming the embedding with `Index = i` and `Vector` the element-wise
narrowing of `v`; every raw entry has its embedding in the result; and when the reported
indices are distinct, the embedding with index `i` carries exactly the narrowed vector of
the raw entry that reported `i`. -/
theorem Embed_vectors_attached
    (pdqLong : (Embedding → Embedding → Int) → List Embedding → List Embedding)
    (hs : SortsByCmp pdqLong) (narrow : F64 → F32) (transport : Transport)
    (modelID : String) (opts : List EmbeddingOption) (response : CreateEmbeddingResponse)
    (hin : (applyOptions opts (freshCall modelID)).Input ≠ [])
    (htr : transport (buildParams modelID (applyOptions opts (freshCall modelID)))
      = .ok response) :
    ∃ res, (Embed pdqLong narrow transport modelID opts).result = .ok res ∧
      res.Embeddings.Perm (response.Data.map
        (fun r => { Vector := r.Embedding.map narrow, Index := r.Index })) ∧
      (∀ r ∈ response.Data, ∃ e ∈ res.Embeddings,
        e.Index = r.Index ∧ e.Vector = r.Embedding.map narrow) ∧
      ((response.Data.map (fun r => r.Index)).Nodup →
        ∀ e ∈ res.Embeddings, ∀ r ∈ response.Data,
          e.Index = r.Index → e.Vector = r.Embedding.map narrow) := by
  have hp := normalize_perm hs narrow response
  refine ⟨normalize pdqLong narrow response, ?_, hp, ?_, ?_⟩
  · rw [Embed_of_response pdqLong narrow transport modelID opts response hin htr]
  · intro r hr
    exact ⟨toEmbedding narrow r, hp.mem_iff.mpr (List.mem_map.mpr ⟨r, hr, rfl⟩), rfl, rfl⟩
  · intro hnd e he r hr hidx
    rcases List.mem_map.mp (hp.mem_iff.mp he) with ⟨s, hs1, rfl⟩
    have hsr : s = r :=
      eq_of_mem_of_index_eq (toEmbedding narrow) (fun _ => rfl) response.Data hnd r s hr hs1
        hidx
    rw [hsr]
    rfl

theorem Embed_vectors_attached_witness :
    (applyOptions [WithEmbeddingBatch ["a", "b", "c"]]
        (freshCall "text-embedding-3-small")).Input ≠ [] ∧
    ∃ res, (Embed insertionSorter lowBits (respondWith scrambledResponse)
        "text-embedding-3-small" [WithEmbeddingBatch ["a", "b", "c"]]).result = .ok res ∧
      res.Embeddings.Perm (scrambledResponse.Data.map
        (fun r => { Vector := r.Embedding.map lowBits, Index := r.Index })) ∧
      ∀ e ∈ res.Embeddings, ∀ r ∈ scrambledResponse.Data,
        e.Index = r.Index → e.Vector = r.Embedding.map lowBits :=
  ⟨by decide,
   (Embed_vectors_attached insertionSorter insertionSorter_sortsByCmp lowBits
      (respondWith scrambledResponse) "text-embedding-3-small"
      [WithEmbeddingBatch ["a", "b", "c"]] scrambledResponse (by decide) rfl).imp
     (fun _ h => ⟨h.1, h.2.1, h.2.2.2 (by decide)⟩)⟩

theorem normalize_of_short
    (pdqLong : (Embedding → Embedding → Int) → List Embedding → List Embedding)
    (narrow : F64 → F32) (response : CreateEmbeddingResponse)
    (h : response.Data.length ≤ maxInsertion) :
    normalize pdqLong narrow response = normalize insertionSorter narrow response := by
  simp [normalize, SortFunc, h, insertionSorter]

/-- C9 (ascending order), evaluated where it fails: for the response whose two entries
report the indices -1 and 2^63 - 1 in this order, the comparator value
`(2^63 - 1) - (-1)` wraps to `-2^63`, the insertion sort exchanges the two entries, and
the result lists the index 2^63 - 1 before the index -1.  The slice has two elements, so
the outcome is the same whatever the library does on long slices. -/
theorem Embed_ascending_fails_on_overflow
    (pdqLong : (Embedding → Embedding → Int) → List Embedding → List Embedding) :
    indexCmp { Vector := [], Index := 9223372036854775807 } { Vector := [], Index := -1 }
      = -9223372036854775808 ∧
    ∃ res, (Embed pdqLong lowBits (respondWith overflowResponse)
        "text-embedding-3-small" [WithEmbeddingBatch ["a", "b"]]).result = .ok res ∧
      res.Embeddings.map (fun e => e.Index) = [9223372036854775807, -1] ∧
      ¬ res.Embeddings.Pairwise (fun a b => a.Index ≤ b.Index) := by
  refine ⟨by decide, normalize pdqLong lowBits overflowResponse, rfl, ?_, ?_⟩ <;>
    rw [normalize_of_short pdqLong lowBits overflowResponse (by decide)] <;> decide

/-- C10 (arrival-order independence), evaluated where it fails: the two responses carry the
same model, the same usage and the same two entries with the distinct indices -1 and
2^63 - 1, in opposite arrival orders; `Embed` returns the entries in opposite orders too,
because the comparator value wraps for one of the two orders. -/
theorem Embed_depends_on_arrival_order
    (pdqLong : (Embedding → Embedding → Int) → List Embedding → List Embedding) :
    overflowResponse.Data.Perm overflowResponseSwapped.Data ∧
    (overflowResponse.Data.map (fun r => r.Index)).Nodup ∧
    overflowResponse.Model = overflowResponseSwapped.Model ∧
    overflowResponse.Usage = overflowResponseSwapped.Usage ∧
    ∃ res res2,
      (Embed pdqLong lowBits (respondWith overflowResponse)
        "text-embedding-3-small" [WithEmbeddingBatch ["a", "b"]]).result = .ok res ∧
      (Embed pdqLong lowBits (respondWith overflowResponseSwapped)
        "text-embedding-3-small" [WithEmbeddingBatch ["a", "b"]]).result = .ok res2 ∧
      res.Embeddings.map (fun e => e.Index) = [9223372036854775807, -1] ∧
      res2.Embeddings.map (fun e => e.Index) = [-1, 9223372036854775807] ∧
      res.Embeddings ≠ res2.Embeddings := by
  refine ⟨by decide, by decide, rfl, rfl, normalize pdqLong lowBits overflowResponse,
    normalize pdqLong lowBits overflowResponseSwapped, rfl, rfl, ?_, ?_, ?_⟩
  · rw [normalize_of_short pdqLong lowBits overflowResponse (by decide)]
    decide
  · rw [normalize_of_short pdqLong lowBits overflowResponseSwapped (by decide)]
    decide
  · rw [normalize_of_short pdqLong lowBits overflowResponse (by decide),
      normalize_of_short pdqLong lowBits overflowResponseSwapped (by decide)]
    decide

theorem buildParams_Model (modelID : String) (call : EmbeddingCall) :
    (buildParams modelID call).Model = modelID := by
  unfold buildParams
  cases call.Dimensions <;> rfl

theorem buildParams_Input (modelID : String) (call : EmbeddingCall) :
    (buildParams modelID call).Input = call.Input := by
  unfold buildParams
  cases call.Dimensions <;> rfl

/-- C11 (transport errors propagate unchanged): when the input is non-empty and the
transport call returns an error `err`, `Embed` returns no result and exactly `err`, and it
has handed exactly one request to the transport. -/
theorem Embed_transport_error_unchanged
    (pdqLong : (Embedding → Embedding → Int) → List Embedding → List Embedding)
    (narrow : F64 → F32) (transport : Transport) (modelID : String)
    (opts : List EmbeddingOption) (err : GoError)
    (hin : (applyOptions opts (freshCall modelID)).Input ≠ [])
    (htr : transport (buildParams modelID (applyOptions opts (freshCall modelID)))
      = .error err) :
    (Embed pdqLong narrow transport modelID opts).result = .error err ∧
    (Embed pdqLong narrow transport modelID opts).requests
      = [buildParams modelID (applyOptions opts (freshCall modelID))] ∧
    (Embed pdqLong narrow transport modelID opts).requests.length = 1 := by
  have h : Embed pdqLong narrow transport modelID opts
      = { requests := [buildParams modelID (applyOptions opts (freshCall modelID))],
          result := .error err } := by
    simp [Embed, hin, htr]
  rw [h]
  exact ⟨rfl, rfl, rfl⟩

theorem Embed_transport_error_unchanged_witness :
    (applyOptions [WithEmbeddingInput "The quick brown fox"]
        (freshCall "text-embedding-3-small")).Input ≠ [] ∧
    (Embed insertionSorter lowBits (failWith (GoError.other 503)) "text-embedding-3-small"
        [WithEmbeddingInput "The quick brown fox"]).result = .error (GoError.other 503) ∧
    (Embed insertionSorter lowBits (failWith (GoError.other 503)) "text-embedding-3-small"
        [WithEmbeddingInput "The quick brown fox"]).requests
      = [{ Model := "text-embedding-3-small", Input := ["The quick brown fox"],
           Dimensions := none }] :=
  ⟨by decide,
   (Embed_transport_error_unchanged insertionSorter lowBits (failWith (GoError.other 503))
      "text-embedding-3-small" [WithEmbeddingInput "The quick brown fox"]
      (GoError.other 503) (by decide) rfl).1,
   (Embed_transport_error_unchanged insertionSorter lowBits (failWith (GoError.other 503))
      "text-embedding-3-small" [WithEmbeddingInput "The quick brown fox"]
      (GoError.other 503) (by decide) rfl).2.1⟩

/-- C12 (request input mapping): for every option list that leaves `Input` non-empty, the
one request handed to the transport carries, as an ordered list, exactly the final `Input`
of the call; a single `WithEmbeddingInput(t)`, the empty string included, is sent as the
one-element list `[t]`. -/
theorem Embed_request_input
    (pdqLong : (Embedding → Embedding → Int) → List Embedding → List Embedding)
    (narrow : F64 → F32) (transport : Transport) (modelID : String)
    (opts : List EmbeddingOption)
    (hin : (applyOptions opts (freshCall modelID)).Input ≠ []) :
    (∃ p, (Embed pdqLong narrow transport modelID opts).requests = [p] ∧
      p.Input = (applyOptions opts (freshCall modelID)).Input) ∧
    ∀ t : String,
      (Embed pdqLong narrow transport modelID [WithEmbeddingInput t]).requests.map
        (fun p => p.Input) = [[t]] := by
  constructor
  · exact ⟨_, Embed_requests_of_input pdqLong narrow transport modelID opts hin,
      buildParams_Input _ _⟩
  · intro t
    rw [Embed_requests_of_input pdqLong narrow transport modelID [WithEmbeddingInput t]
      (by simp [applyOptions, WithEmbeddingInput, freshCall])]
    simp [buildParams_Input, applyOptions, WithEmbeddingInput, freshCall]

theorem Embed_request_input_witness :
    (applyOptions [WithEmbeddingBatch ["", "text2", "text2"]]
        (freshCall "text-embedding-3-small")).Input ≠ [] ∧
    ∃ p, (Embed insertionSorter lowBits (respondWith scrambledResponse)
        "text-embedding-3-small" [WithEmbeddingBatch ["", "text2", "text2"]]).requests = [p] ∧
      p.Input = ["", "text2", "text2"] :=
  ⟨by decide,
   (Embed_request_input insertionSorter lowBits (respondWith scrambledResponse)
      "text-embedding-3-small" [WithEmbeddingBatch ["", "text2", "text2"]]
      (by decide)).1⟩

/-- C13 (model and usage echo): for every successful `Embed` call the result's `Model` is
the model string reported in the backend response, `Usage.InputTokens` is the response's
`prompt_tokens` and `Usage.TotalTokens` is the response's `total_tokens`. -/
theorem Embed_model_usage_echo
    (pdqLong : (Embedding → Embedding → Int) → List Embedding → List Embedding)
    (narrow : F64 → F32) (transport : Transport) (modelID : String)
    (opts : List EmbeddingOption) (response : CreateEmbeddingResponse)
    (hin : (applyOptions opts (freshCall modelID)).Input ≠ [])
    (htr : transport (buildParams modelID (applyOptions opts (freshCall modelID)))
      = .ok response) :
    ∃ res, (Embed pdqLong narrow transport modelID opts).result = .ok res ∧
      res.Model = response.Model ∧
      res.Usage.InputTokens = response.Usage.PromptTokens ∧
      res.Usage.TotalTokens = response.Usage.TotalTokens := by
  refine ⟨normalize pdqLong narrow response, ?_, rfl, rfl, rfl⟩
  rw [Embed_of_response pdqLong narrow transport modelID opts response hin htr]

theorem Embed_model_usage_echo_witness :
    (applyOptions [WithEmbeddingBatch ["a", "b", "c"]] (freshCall "embedding-default")).Input
      ≠ [] ∧
    ∃ res, (Embed insertionSorter lowBits (respondWith scrambledResponse)
        "embedding-default" [WithEmbeddingBatch ["a", "b", "c"]]).result = .ok res ∧
      res.Model = "text-embedding-3-small" ∧
      res.Usage.InputTokens = 15 ∧
      res.Usage.TotalTokens = 15 :=
  ⟨by decide,
   Embed_model_usage_echo insertionSorter lowBits (respondWith scrambledResponse)
     "embedding-default" [WithEmbeddingBatch ["a", "b", "c"]] scrambledResponse
     (by decide) rfl⟩

theorem filter_sinkInto {α : Type} (cmp : α → α → Int) (p : α → Bool)
    (hp : ∀ a b, p a = true → p b = true → ¬ cmp a b < 0) (rp : List α) (x : α) :
    (sinkInto cmp rp x).filter p = (x :: rp).filter p := by
  induction rp with
  | nil => simp [sinkInto]
  | cons y ys ih =>
    unfold sinkInto
    by_cases hc : cmp x y < 0
    · rw [if_pos hc, List.filter_cons, ih]
      cases hx : p x <;> cases hy : p y <;> simp [List.filter_cons, hx, hy]
      exact (hp x y hx hy hc).elim
    · rw [if_neg hc]

theorem filter_foldl_sinkInto {α : Type} (cmp : α → α → Int) (p : α → Bool)
    (hp : ∀ a b, p a = true → p b = true → ¬ cmp a b < 0) (suf rp : List α) :
    (suf.foldl (sinkInto cmp) rp).filter p = (suf.reverse ++ rp).filter p := by
  induction suf generalizing rp with
  | nil => simp
  | cons x suf ih =>
    simp only [List.foldl_cons]
    rw [ih, List.filter_append, filter_sinkInto cmp p hp, List.reverse_cons,
      List.append_assoc, List.filter_append]
    rfl

theorem filter_insertionSorter {α : Type} (cmp : α → α → Int) (p : α → Bool)
    (hp : ∀ a b, p a = true → p b = true → ¬ cmp a b < 0) (x : List α) :
    (insertionSorter cmp x).filter p = x.filter p := by
  rw [insertionSorter_eq, List.filter_reverse, filter_foldl_sinkInto cmp p hp]
  simp [List.filter_reverse]

theorem reversedInsertionSorter_sortsByCmp {α : Type} :
    SortsByCmp (@reversedInsertionSorter α) where
  perm := by
    intro cmp x
    exact (insertionSorter_sortsByCmp.perm cmp x.reverse).trans (List.reverse_perm x)
  sorted := by
    intro cmp x hsw
    refine insertionSorter_sortsByCmp.sorted cmp x.reverse ?_
    exact
      { asymm := fun a ha b hb =>
          hsw.asymm a (List.mem_reverse.mp ha) b (List.mem_reverse.mp hb)
        negTrans := fun a ha b hb c hc =>
          hsw.negTrans a (List.mem_reverse.mp ha) b (List.mem_reverse.mp hb) c
            (List.mem_reverse.mp hc) }

theorem indexCmp_of_same_index (i : Int) (a b : Embedding)
    (ha : decide (a.Index = i) = true) (hb : decide (b.Index = i) = true) :
    ¬ indexCmp a b < 0 := by
  have h1 : a.Index = i := of_decide_eq_true ha
  have h2 : b.Index = i := of_decide_eq_true hb
  have h0 : wrapInt 0 = 0 := by decide
  unfold indexCmp
  rw [h1, h2, sub_self, h0]
  exact lt_irrefl 0

set_option maxRecDepth 10000 in
/-- C14, as the claim states it, fails beyond twelve entries: the library promises of
`slices.SortFunc` an ascending rearrangement and no stability, and with a routine for
long slices that meets this contract the thirteen-entry response whose first and seventh
entries both report the index 6 comes back with the seventh entry (vector `[7.0]`, as a
32-bit float the pattern 1088421888) before the first (vector `[1.0]`, pattern
1065353216).  The vectors are narrowed with the conversion `float32`. -/
theorem Embed_stability_counterexample :
    SortsByCmp (@reversedInsertionSorter Embedding) ∧
    ∃ res, (Embed reversedInsertionSorter float32 (respondWith duplicateIndexResponse)
        "text-embedding-3-small" [WithEmbeddingBatch thirteenTexts]).result = .ok res ∧
      (duplicateIndexResponse.Data.map (toEmbedding float32)).filter
          (fun e => decide (e.Index = 6))
        = [{ Vector := [{ bits := 1065353216 }], Index := 6 },
           { Vector := [{ bits := 1088421888 }], Index := 6 }] ∧
      res.Embeddings.filter (fun e => decide (e.Index = 6))
        = [{ Vector := [{ bits := 1088421888 }], Index := 6 },
           { Vector := [{ bits := 1065353216 }], Index := 6 }] ∧
      res.Embeddings.map (fun e => e.Index) = [0, 1, 2, 3, 4, 5, 6, 6, 7, 8, 9, 10, 11] :=
  ⟨reversedInsertionSorter_sortsByCmp, _, rfl, rfl, rfl, rfl⟩

/-- C14 (stability, amended): for every backend response with at most twelve data entries,
any two raw entries that report the same index appear in the result in the relative order
in which they arrived: for every index `i`, the embeddings of the result with index `i`
are the converted entries with index `i`, in arrival order.  Nothing is stated about
longer responses. -/
theorem Embed_stable_on_short_response
    (pdqLong : (Embedding → Embedding → Int) → List Embedding → List Embedding)
    (narrow : F64 → F32) (transport : Transport) (modelID : String)
    (opts : List EmbeddingOption) (response : CreateEmbeddingResponse)
    (hin : (applyOptions opts (freshCall modelID)).Input ≠ [])
    (htr : transport (buildParams modelID (applyOptions opts (freshCall modelID)))
      = .ok response)
    (hlen : response.Data.length ≤ 12) :
    ∃ res, (Embed pdqLong narrow transport modelID opts).result = .ok res ∧
      ∀ i : Int, res.Embeddings.filter (fun e => decide (e.Index = i))
        = (response.Data.map (fun r =>
            ({ Vector := r.Embedding.map narrow, Index := r.Index } : Embedding))).filter
            (fun e => decide (e.Index = i)) := by
  refine ⟨normalize pdqLong narrow response, ?_, ?_⟩
  · rw [Embed_of_response pdqLong narrow transport modelID opts response hin htr]
  · intro i
    have hs : (normalize pdqLong narrow response).Embeddings
        = insertionSorter indexCmp (response.Data.map (toEmbedding narrow)) := by
      simp [normalize, SortFunc, maxInsertion, hlen, insertionSorter]
    rw [hs, filter_insertionSorter indexCmp (fun e => decide (e.Index = i))
      (indexCmp_of_same_index i)]
    rfl

theorem Embed_stable_on_short_response_witness :
    (applyOptions [WithEmbeddingBatch ["a", "b", "c", "d"]]
        (freshCall "text-embedding-3-small")).Input ≠ [] ∧
    repeatedIndexResponse.Data.length ≤ 12 ∧
    ∃ res, (Embed reversedInsertionSorter float32 (respondWith repeatedIndexResponse)
        "text-embedding-3-small" [WithEmbeddingBatch ["a", "b", "c", "d"]]).result
        = .ok res ∧
      res.Embeddings.filter (fun e => decide (e.Index = 0))
        = [{ Vector := [{ bits := 1065353216 }], Index := 0 },
           { Vector := [{ bits := 1082130432 }], Index := 0 }] ∧
      res.Embeddings.filter (fun e => decide (e.Index = 1))
        = [{ Vector := [{ bits := 1073741824 }], Index := 1 },
           { Vector := [{ bits := 1077936128 }], Index := 1 }] ∧
      ∀ i : Int, res.Embeddings.filter (fun e => decide (e.Index = i))
        = (repeatedIndexResponse.Data.map (fun r =>
            ({ Vector := r.Embedding.map float32, Index := r.Index } : Embedding))).filter
            (fun e => decide (e.Index = i)) :=
  ⟨by decide, by decide,
   (Embed_stable_on_short_response reversedInsertionSorter float32
      (respondWith repeatedIndexResponse) "text-embedding-3-small"
      [WithEmbeddingBatch ["a", "b", "c", "d"]] repeatedIndexResponse
      (by decide) rfl (by decide)).imp
     (fun _ h => ⟨h.1, (h.2 0).trans rfl, (h.2 1).trans rfl, h.2⟩)⟩

/-- C15, as the claim states it, fails: with a caller-defined option that overwrites the
`Model` field of the call, the request still carries the `modelID` argument. -/
theorem Embed_model_override_counterexample :
    (applyOptions [WithEmbeddingInput "The quick brown fox",
        overrideModel "text-embedding-3-large"]
      (freshCall "text-embedding-3-small")).Model = "text-embedding-3-large" ∧
    (Embed insertionSorter lowBits (respondWith scrambledResponse) "text-embedding-3-small"
        [WithEmbeddingInput "The quick brown fox",
          overrideModel "text-embedding-3-large"]).requests.map (fun p => p.Model)
      = ["text-embedding-3-small"] :=
  ⟨by decide, by decide⟩

/-- C15 (request model, amended): for every `modelID` and every list of options, built-in
or caller-defined, that leaves `Input` non-empty, the model sent in the one outgoing
request is the `modelID` argument; it is the `Model` field of the call after all options
exactly when no option has changed that field, as is the case for every list of built-in
options. -/
theorem Embed_request_model
    (pdqLong : (Embedding → Embedding → Int) → List Embedding → List Embedding)
    (narrow : F64 → F32) (transport : Transport) (modelID : String)
    (opts : List EmbeddingOption)
    (hin : (applyOptions opts (freshCall modelID)).Input ≠ []) :
    ∃ p, (Embed pdqLong narrow transport modelID opts).requests = [p] ∧
      p.Model = modelID ∧
      (p.Model = (applyOptions opts (freshCall modelID)).Model ↔
        (applyOptions opts (freshCall modelID)).Model = modelID) ∧
      ∀ builtins : List BuiltinOption, opts = builtins.map BuiltinOption.toOption →
        p.Model = (applyOptions opts (freshCall modelID)).Model := by
  refine ⟨_, Embed_requests_of_input pdqLong narrow transport modelID opts hin,
    buildParams_Model _ _, ?_, ?_⟩
  · rw [buildParams_Model]
    exact eq_comm
  · intro builtins hb
    rw [buildParams_Model, hb, applyOptions_builtin_fresh]

theorem Embed_request_model_witness :
    (applyOptions [WithEmbeddingInput "The quick brown fox",
        overrideModel "text-embedding-3-large"]
      (freshCall "text-embedding-3-small")).Input ≠ [] ∧
    ∃ p, (Embed insertionSorter lowBits (respondWith scrambledResponse)
        "text-embedding-3-small"
        [WithEmbeddingInput "The quick brown fox",
          overrideModel "text-embedding-3-large"]).requests = [p] ∧
      p.Model = "text-embedding-3-small" :=
  ⟨by decide,
   (Embed_request_model insertionSorter lowBits (respondWith scrambledResponse)
      "text-embedding-3-small"
      [WithEmbeddingInput "The quick brown fox", overrideModel "text-embedding-3-large"]
      (by decide)).imp (fun _ h => ⟨h.1, h.2.1⟩)⟩

/-- C16 (comparator soundness on valid indices): for embeddings `a`, `b` whose `Index`
values lie in `0..2^63-1`, the difference `a.Index - b.Index` lies in the 64-bit range, so
the comparator computed with wrapping arithmetic equals it (no overflow), and the
comparator is negative, zero or positive exactly when `a.Index` is less than, equal to or
greater than `b.Index`. -/
theorem indexCmp_sound_on_valid (a b : Embedding)
    (ha : 0 ≤ a.Index ∧ a.Index ≤ 2 ^ 63 - 1) (hb : 0 ≤ b.Index ∧ b.Index ≤ 2 ^ 63 - 1) :
    (-(2 ^ 63) ≤ a.Index - b.Index ∧ a.Index - b.Index < 2 ^ 63) ∧
    indexCmp a b = a.Index - b.Index ∧
    (indexCmp a b < 0 ↔ a.Index < b.Index) ∧
    (indexCmp a b = 0 ↔ a.Index = b.Index) ∧
    (0 < indexCmp a b ↔ b.Index < a.Index) := by
  have h : indexCmp a b = a.Index - b.Index := by
    unfold indexCmp
    exact wrapInt_of_inRange _ (by omega) (by omega)
  rw [h]
  refine ⟨⟨by omega, by omega⟩, rfl, ?_, ?_, ?_⟩ <;> omega

theorem indexCmp_sound_on_valid_witness :
    indexCmp { Vector := [], Index := 0 } { Vector := [], Index := 9223372036854775807 }
      = -9223372036854775807 ∧
    (indexCmp { Vector := [], Index := 0 } { Vector := [], Index := 9223372036854775807 } < 0
      ↔ (0 : Int) < 9223372036854775807) :=
  ⟨(indexCmp_sound_on_valid { Vector := [], Index := 0 }
      { Vector := [], Index := 9223372036854775807 } (by decide) (by decide)).2.1,
   (indexCmp_sound_on_valid { Vector := [], Index := 0 }
      { Vector := [], Index := 9223372036854775807 } (by decide) (by decide)).2.2.1⟩

end Fantasy
